import Mathlib

/-!
Shallow embedding of the course-scheduling core
(`src/scheduler/scheduler_engine.py`, with identical copies of the parsing
and conflict code in `src/core/parsing.py` and `src/core/conflict.py`, and
the statistics counters of `src/scheduler/statistics.py`).

Python regular-expression searches are embedded as executable scans over
`List Char`; machine integers are `Nat`/`Int` (Python integers are
unbounded, so no wrap-around is modelled).
-/

namespace Timetable

/-- Python `\d` on the ASCII inputs this system handles. -/
def isDigitCh (c : Char) : Bool := c.isDigit

/-- Python `\s` (ASCII whitespace class). -/
def isWs (c : Char) : Bool :=
  c = ' ' || c = '\t' || c = '\n' || c = '\r' || c = Char.ofNat 11 || c = Char.ofNat 12

/-- `int` on a run of decimal digits. -/
def strToNatDigits (l : List Char) : Nat :=
  l.foldl (fun n c => n * 10 + (c.toNat - 48)) 0

/-- Accumulator pass of Python `str.split()` (split on whitespace runs,
dropping empty fields); `w` is the current word, reversed. -/
def splitWsGo : List Char → List Char → List (List Char)
  | [], [] => []
  | [], w => [w.reverse]
  | c :: cs, w =>
    if isWs c then
      (if w.isEmpty then splitWsGo cs [] else w.reverse :: splitWsGo cs [])
    else splitWsGo cs (c :: w)

/-- Python `schedule_string.strip().split()`. -/
def splitWs (l : List Char) : List (List Char) := splitWsGo l []

/-- Python `" ".join(parts)`. -/
def joinSpace : List (List Char) → List Char
  | [] => []
  | [w] => w
  | w :: ws => w ++ ' ' :: joinSpace ws

/-- The day-token loop of `parse_schedule_string`: a literal `T`
immediately followed by `h` is consumed greedily as the token `Th`. -/
def parseDays : List Char → List String
  | [] => []
  | 'T' :: 'h' :: rest => "Th" :: parseDays rest
  | c :: rest => String.singleton c :: parseDays rest

/-- One successful match of `\d{1,2}:\d{2}\s*[AP]M` (case-insensitive). -/
structure TimeMatch where
  hoursDigits : List Char
  minutesDigits : List Char
  ampm : Char
  text : List Char
  rest : List Char
deriving Repr, DecidableEq

/-- `[AP]` with `re.IGNORECASE`. -/
def isAP (c : Char) : Bool := c = 'A' || c = 'a' || c = 'P' || c = 'p'

/-- `M` with `re.IGNORECASE`. -/
def isMCh (c : Char) : Bool := c = 'M' || c = 'm'

/-- Try to match `\d{n}:\d{2}\s*[AP]M` at the head of `l` (the `\d{1,2}`
of the source regex is realised by trying `n = 2` then `n = 1`; no other
backtracking can arise because a shorter digit run is followed by a digit,
never by `:`). -/
def matchTimeN (n : Nat) (l : List Char) : Option TimeMatch :=
  let hd := l.take n
  let r0 := l.drop n
  if hd.length = n && hd.all isDigitCh then
    match r0 with
    | ':' :: r1 =>
      let mm := r1.take 2
      let r2 := r1.drop 2
      if mm.length = 2 && mm.all isDigitCh then
        let sp := r2.takeWhile isWs
        let r3 := r2.dropWhile isWs
        match r3 with
        | a :: m :: r4 =>
          if isAP a && isMCh m then
            some ⟨hd, mm, a, hd ++ ':' :: mm ++ sp ++ [a, m], r4⟩
          else none
        | _ => none
      else none
    | _ => none
  else none

/-- Greedy `\d{1,2}` : two digits preferred, then one. -/
def matchTimeAt (l : List Char) : Option TimeMatch :=
  match matchTimeN 2 l with
  | some tm => some tm
  | none => matchTimeN 1 l

/-- `re.search` for `(\d{1,2}):(\d{2})\s*([AP]M)`: leftmost position scan. -/
def searchTime : List Char → Option TimeMatch
  | [] => none
  | c :: cs =>
    match matchTimeAt (c :: cs) with
    | some tm => some tm
    | none => searchTime cs

/-- The 12-hour to minutes-from-midnight conversion at the end of
`parse_time_to_minutes`. -/
def to24 (hours minutes : Nat) (isPM : Bool) : Nat :=
  if isPM && hours != 12 then (hours + 12) * 60 + minutes
  else if !isPM && hours == 12 then minutes
  else hours * 60 + minutes

/-- `parse_time_to_minutes` of `src/core/parsing.py` (minutes are
non-negative, so the Python `int` is a `Nat`). -/
def parse_time_to_minutes (l : List Char) : Option Nat :=
  match searchTime l with
  | none => none
  | some tm =>
    some (to24 (strToNatDigits tm.hoursDigits) (strToNatDigits tm.minutesDigits)
      (tm.ampm = 'P' || tm.ampm = 'p'))

/-- The `ParsedSchedule` TypedDict. -/
structure ParsedSchedule where
  days : List String
  startTime : Nat
  endTime : Nat
deriving Repr, DecidableEq, Inhabited

/-- Match `(\d{1,2}:\d{2}\s*[AP]M)\s*-\s*(\d{1,2}:\d{2}\s*[AP]M)` at the
head of `l`, returning the two group substrings. -/
def matchRangeAt (l : List Char) : Option (List Char × List Char) :=
  match matchTimeAt l with
  | none => none
  | some tm1 =>
    match tm1.rest.dropWhile isWs with
    | '-' :: r3 =>
      match matchTimeAt (r3.dropWhile isWs) with
      | none => none
      | some tm2 => some (tm1.text, tm2.text)
    | _ => none

/-- `re.search` for the time-range pattern: leftmost position scan. -/
def searchRange : List Char → Option (List Char × List Char)
  | [] => none
  | c :: cs =>
    match matchRangeAt (c :: cs) with
    | some g => some g
    | none => searchRange cs

/-- The tail of `parse_schedule_string` after the field split: day
tokenisation, the time-range search, and the start/end extraction. -/
def parseRangePart (dp : List Char) (rest : List (List Char)) :
    Option ParsedSchedule :=
  match searchRange (joinSpace rest) with
  | none => none
  | some (g1, g2) =>
    match parse_time_to_minutes g1, parse_time_to_minutes g2 with
    | some st, some en =>
      if st ≥ en then none else some ⟨parseDays dp, st, en⟩
    | _, _ => none

/-- `parse_schedule_string` of `src/core/parsing.py`. -/
def parse_schedule_string (s : String) : Option ParsedSchedule :=
  if s.data.isEmpty then none
  else
    match splitWs s.data with
    | [] => none
    | dp :: rest =>
      if (dp :: rest).length < 4 then none
      else parseRangePart dp rest

/-- Python `time_str.split(':')` (every separator splits; empty fields
are kept). -/
def splitColon : List Char → List (List Char)
  | [] => [[]]
  | ':' :: cs => [] :: splitColon cs
  | c :: cs =>
    match splitColon cs with
    | [] => [[c]]
    | w :: ws => (c :: w) :: ws

/-- `time_to_minutes` (24-hour `HH:MM`); malformed input is a caller
contract violation in the source (it raises), embedded as 0. -/
def time_to_minutes (s : String) : Nat :=
  match splitColon s.data with
  | [h, m] => strToNatDigits h * 60 + strToNatDigits m
  | _ => 0

/-- The frozen `Section` dataclass. -/
structure Section where
  group : Int
  schedule : String
  enrolled : String
  status : String
  parsed_schedule : Option ParsedSchedule := none
deriving Repr, DecidableEq, Inhabited

/-- The `Constraints` TypedDict (`maxSchedules` and `maxFullPerSchedule`
are Python ints, so they may be non-positive). -/
structure Constraints where
  earliestStart : String
  latestEnd : String
  allowFull : Bool
  allowAt_risk : Bool
  maxSchedules : Int
  maxFullPerSchedule : Int
deriving Repr, DecidableEq, Inhabited

/-- The Python idiom `section.parsed_schedule or parse_schedule_string(
section.schedule)` (a present dict is always truthy). -/
def effParsed (s : Section) : Option ParsedSchedule :=
  match s.parsed_schedule with
  | some p => some p
  | none => parse_schedule_string s.schedule

/-- Try to match `(\d+)/(\d+)` at the head of `l`: a maximal digit run,
then `/`, then a non-empty digit run (no other backtracking can arise
because a shorter first run is followed by a digit, never by `/`). -/
def fracAt (l : List Char) : Option (Nat × Nat) :=
  match l with
  | [] => none
  | c :: _ =>
    if isDigitCh c then
      match l.dropWhile isDigitCh with
      | '/' :: r2 =>
        let d2 := r2.takeWhile isDigitCh
        if d2.isEmpty then none
        else some (strToNatDigits (l.takeWhile isDigitCh), strToNatDigits d2)
      | _ => none
    else none

/-- `re.search` for `(\d+)/(\d+)`: leftmost position scan. -/
def searchFrac : List Char → Option (Nat × Nat)
  | [] => none
  | c :: cs =>
    match fracAt (c :: cs) with
    | some r => some r
    | none => searchFrac cs

/-- `is_full` of `src/core/conflict.py`. -/
def is_full (s : Section) : Bool :=
  match searchFrac s.enrolled.data with
  | none => false
  | some (current, total) => current ≥ total

/-- `is_at_risk` of `src/core/conflict.py`. -/
def is_at_risk (s : Section) : Bool :=
  match searchFrac s.enrolled.data with
  | none => false
  | some (current, total) =>
    current = 0 || (total ≥ 20 && current < 6) || (total ≥ 10 && current < 2)

/-- `is_viable` of `src/core/conflict.py`. -/
def is_viable (s : Section) (c : Constraints) : Bool :=
  match effParsed s with
  | none => false
  | some p =>
    if p.startTime < time_to_minutes c.earliestStart
        || p.endTime > time_to_minutes c.latestEnd then false
    else if !c.allowFull && is_full s then false
    else if !c.allowAt_risk && is_at_risk s then false
    else true

/-- `has_conflict` of `src/core/conflict.py` (`set(p1) & set(p2)` being
non-empty is `any`-membership). -/
def has_conflict (s1 s2 : Section) : Bool :=
  match effParsed s1, effParsed s2 with
  | some p1, some p2 =>
    (p1.days.any fun d => p2.days.contains d)
      && (decide (p1.startTime < p2.endTime) && decide (p2.startTime < p1.endTime))
  | _, _ => false

/-- The `meta` TypedDict of a generated schedule. -/
structure ScheduleMeta where
  fullCount : Nat
  endsByPreferred : Bool
  hasLate : Bool
  latestEnd : Nat
deriving Repr, DecidableEq, Inhabited

/-- The `GeneratedSchedule` TypedDict. -/
structure GeneratedSchedule where
  selections : List Section
  parsed : List ParsedSchedule
  meta : ScheduleMeta
deriving Repr, DecidableEq, Inhabited

/-- `create_schedule_object` of the engine (`max(..., default=0)` over
`Nat` is a fold of `max` from 0). -/
def create_schedule_object (sections : List Section) (c : Constraints) :
    GeneratedSchedule :=
  let parsed_list := (sections.map effParsed).reduceOption
  let full_count := (sections.filter is_full).length
  let latest_end := (parsed_list.map (·.endTime)).foldl max 0
  let preferred_end := time_to_minutes c.latestEnd
  let noon := time_to_minutes "12:00"
  let has_late := parsed_list.any fun p => p.startTime ≥ noon
  ⟨sections, parsed_list,
    ⟨full_count, latest_end ≤ preferred_end, has_late, latest_end⟩⟩

/-- The counter fields of `Statistics` (`execution_time_ms` is wall-clock
time and lives outside the embedding). -/
structure SStats where
  nodes_explored : Nat
  valid_schedules : Nat
  pruned_by_conflict : Nat
  pruned_by_viability : Nat
  pruned_by_full : Nat
deriving Repr, DecidableEq, Inhabited

/-- The engine's mutable state during `backtrack`: the shared `results`
list and the statistics counters. -/
structure SearchState where
  results : List GeneratedSchedule
  stats : SStats
deriving Repr, DecidableEq, Inhabited

/-- `stats.increment_node()`. -/
def bumpNode (st : SearchState) : SearchState :=
  { st with stats := { st.stats with nodes_explored := st.stats.nodes_explored + 1 } }

/-- `stats.increment_pruned_conflict()`. -/
def bumpConflict (st : SearchState) : SearchState :=
  { st with stats := { st.stats with pruned_by_conflict := st.stats.pruned_by_conflict + 1 } }

/-- The `backtrack` inner function of `generate_schedules`; the `step`
index and `viable_lists[step:]` are fused into the `remaining` list, and
the mutable `(results, stats)` pair is threaded through the candidate
loop as a fold. -/
def backtrack (c : Constraints) : List (List Section) → List Section →
    SearchState → SearchState
  | remaining, sel, st =>
    let st1 := bumpNode st
    if (st1.results.length : Int) ≥ c.maxSchedules then st1
    else
      match remaining with
      | [] =>
        if ((sel.filter is_full).length : Int) ≤ c.maxFullPerSchedule then
          { st1 with
            results := st1.results ++ [create_schedule_object sel c],
            stats := { st1.stats with
              valid_schedules := st1.stats.valid_schedules + 1 } }
        else
          { st1 with stats := { st1.stats with
              pruned_by_full := st1.stats.pruned_by_full + 1 } }
      | course :: rest =>
        course.foldl
          (fun acc s =>
            if sel.any fun t => has_conflict s t then bumpConflict acc
            else backtrack c rest (sel ++ [s]) acc)
          st1

/-- The engine's re-creation of a retained section with its parsed
schedule attached. -/
def attachParsed (s : Section) : Section :=
  { s with parsed_schedule := parse_schedule_string s.schedule }

/-- The pre-filter pass of `generate_schedules`: per course, the viable
sections (with intervals attached) and the running `prunedByViability`
count; `none` is the early return when some course retains nothing. -/
def preFilter (c : Constraints) : List (List Section) →
    Option (List (List Section)) × Nat
  | [] => (some [], 0)
  | course :: rest =>
    let viable := (course.filter fun s => is_viable s c).map attachParsed
    let prunedHere := (course.filter fun s => !is_viable s c).length
    if viable.isEmpty then (none, prunedHere)
    else
      let r := preFilter c rest
      (r.1.map fun ls => viable :: ls, prunedHere + r.2)

/-- `generate_schedules` of `src/scheduler/scheduler_engine.py`
(tracing disabled; it never alters outcomes). -/
def generate_schedules (course_sections : List (List Section))
    (c : Constraints) : List GeneratedSchedule × SStats :=
  match preFilter c course_sections with
  | (none, pruned) => ([], ⟨0, 0, 0, pruned, 0⟩)
  | (some viable_lists, pruned) =>
    let st := backtrack c viable_lists [] ⟨[], ⟨0, 0, 0, pruned, 0⟩⟩
    (st.results, st.stats)

/-- The number of feasible combinations the search would accept from
`remaining` after `sel`: one section per course, conflict-free against
the earlier picks, with the full-section cap checked at the leaf.
Structured exactly like `backtrack` so the two fold in step. -/
def numFeasible (c : Constraints) : List (List Section) → List Section → Nat
  | [], sel =>
    if ((sel.filter is_full).length : Int) ≤ c.maxFullPerSchedule then 1 else 0
  | course :: rest, sel =>
    course.foldl
      (fun n s =>
        n + (if sel.any fun t => has_conflict s t then 0
             else numFeasible c rest (sel ++ [s])))
      0

/-- Total number of feasible combinations of a problem, after the
pre-filter pass (0 when the pre-filter short-circuits). -/
def feasibleCount (course_sections : List (List Section))
    (c : Constraints) : Nat :=
  match (preFilter c course_sections).1 with
  | none => 0
  | some viable_lists => numFeasible c viable_lists []

/-- The number of nodes full exhaustive enumeration explores from
`remaining` after `sel`: the node itself, plus, per non-conflicting
candidate of the next course, the nodes of its subtree (conflicting
candidates are pruned without entering a node, exactly as in
`backtrack`; no result cap). Structured exactly like `backtrack` so the
two fold in step. -/
def exhaustiveNodes : List (List Section) → List Section → Nat
  | [], _ => 1
  | course :: rest, sel =>
    course.foldl
      (fun n s =>
        n + (if sel.any fun t => has_conflict s t then 0
             else exhaustiveNodes rest (sel ++ [s])))
      1

/-- Nodes full exhaustive enumeration explores for a whole problem,
after the pre-filter pass (0 when the pre-filter short-circuits,
matching the engine's early return before any `backtrack` call). -/
def exhaustiveNodeCount (course_sections : List (List Section))
    (c : Constraints) : Nat :=
  match (preFilter c course_sections).1 with
  | none => 0
  | some viable_lists => exhaustiveNodes viable_lists []

/-! ### Fixed concrete sections and constraints used by witnesses -/

/-- A permissive constraints record. -/
def cWide : Constraints := ⟨"07:00", "21:00", true, true, 10, 1⟩

/-- `cWide` with the result cap set to 0. -/
def cCapZero : Constraints := ⟨"07:00", "21:00", true, true, 0, 1⟩

/-- `cWide` with the result cap set to 1. -/
def cCapOne : Constraints := ⟨"07:00", "21:00", true, true, 1, 1⟩

/-- `cWide` with the result cap set to 2. -/
def cCapTwo : Constraints := ⟨"07:00", "21:00", true, true, 2, 1⟩

/-- A viable Monday-Wednesday morning section. -/
def secMW : Section := ⟨1, "MW 10:00 AM - 11:30 AM", "10/30", "open", none⟩

/-- A viable Tuesday-Thursday afternoon section. -/
def secTTh : Section := ⟨2, "TTh 01:00 PM - 03:00 PM", "15/30", "open", none⟩

/-- A section whose schedule text does not parse. -/
def secRaw : Section := ⟨3, "nope", "5/30", "open", none⟩

/-- A full section. -/
def secFull : Section := ⟨4, "MW 08:00 AM - 09:00 AM", "30/30", "open", none⟩

/-- A section carrying a cached interval that its schedule text does not
support: the cache says `MW 10:00-11:30` but the text is unparseable. -/
def secStale : Section := ⟨5, "nope", "10/30", "open", some ⟨["M", "W"], 600, 690⟩⟩

/-- A viable Friday morning section. -/
def secF : Section := ⟨6, "F 09:00 AM - 10:00 AM", "5/30", "open", none⟩

/-! ### Helper lemmas -/

/-- Non-emptiness of a set intersection is symmetric in the two lists. -/
theorem any_contains_comm (l1 l2 : List String) :
    (l1.any fun d => l2.contains d) = (l2.any fun d => l1.contains d) := by
  rw [Bool.eq_iff_iff]
  simp only [List.any_eq_true, List.elem_iff]
  exact ⟨fun ⟨d, h1, h2⟩ => ⟨d, h2, h1⟩, fun ⟨d, h1, h2⟩ => ⟨d, h2, h1⟩⟩

/-- `has_conflict` is symmetric. -/
theorem has_conflict_comm (a b : Section) :
    has_conflict a b = has_conflict b a := by
  unfold has_conflict
  cases effParsed a with
  | none => cases effParsed b <;> rfl
  | some p1 =>
    cases effParsed b with
    | none => rfl
    | some p2 =>
      simp only
      rw [any_contains_comm, Bool.and_comm (decide (p1.startTime < p2.endTime))]

/-! ### Claim theorems: conflict oracle and classification -/

/-- C7: for all sections `a` and `b`,
`hasConflict(a, b)` equals `hasConflict(b, a)`. -/
theorem claim7_conflict_symm (a b : Section) :
    has_conflict a b = has_conflict b a :=
  has_conflict_comm a b

/-- C5: `hasConflict(a, b)` is false when either section's interval is
none or when the two day sets are disjoint; otherwise it equals the
half-open overlap test `a.start < b.end && b.start < a.end`, so touching
intervals (`a.end == b.start`) never conflict. -/
theorem claim5_conflict_semantics (a b : Section) :
    (effParsed a = none ∨ effParsed b = none → has_conflict a b = false)
    ∧ (∀ p1 p2, effParsed a = some p1 → effParsed b = some p2 →
        ((p1.days.any fun d => p2.days.contains d) = false →
          has_conflict a b = false)
        ∧ ((p1.days.any fun d => p2.days.contains d) = true →
          has_conflict a b =
            (decide (p1.startTime < p2.endTime)
              && decide (p2.startTime < p1.endTime)))
        ∧ (p1.endTime = p2.startTime → has_conflict a b = false)) := by
  constructor
  · rintro (h | h) <;> simp [has_conflict, h]
  · intro p1 p2 h1 h2
    have hc : has_conflict a b =
        ((p1.days.any fun d => p2.days.contains d)
          && (decide (p1.startTime < p2.endTime)
            && decide (p2.startTime < p1.endTime))) := by
      unfold has_conflict
      rw [h1, h2]
    refine ⟨fun hd => ?_, fun hd => ?_, fun ht => ?_⟩
    · rw [hc, hd, Bool.false_and]
    · rw [hc, hd, Bool.true_and]
    · have hlt : decide (p2.startTime < p1.endTime) = false := by
        rw [← ht]
        simp
      rw [hc, hlt, Bool.and_false, Bool.and_false]

/-- Witness for C5 at concrete sections: an unparseable section never
conflicts. -/
theorem claim5_conflict_semantics_witness :
    has_conflict secRaw secMW = false :=
  (claim5_conflict_semantics secRaw secMW).1 (Or.inl rfl)

/-- C8: `isFull` is false without a `digits/digits` match and otherwise
`current >= total`; `isAtRisk` is false without a match and otherwise
exactly `current == 0`, or `total >= 20 && current < 6`, or
`total >= 10 && current < 2`. -/
theorem claim8_enrollment_classification (s : Section) :
    (searchFrac s.enrolled.data = none →
      is_full s = false ∧ is_at_risk s = false)
    ∧ (∀ current total : Nat,
        searchFrac s.enrolled.data = some (current, total) →
        is_full s = decide (current ≥ total)
        ∧ is_at_risk s =
            (decide (current = 0)
              || (decide (total ≥ 20) && decide (current < 6))
              || (decide (total ≥ 10) && decide (current < 2)))) := by
  constructor
  · intro h
    constructor <;> simp [is_full, is_at_risk, h]
  · intro current total h
    constructor <;> simp [is_full, is_at_risk, h]

/-- Witness for C8 at a concrete section: enrollment `30/30` is full. -/
theorem claim8_enrollment_classification_witness :
    is_full secFull = decide ((30 : Nat) ≥ 30) :=
  ((claim8_enrollment_classification secFull).2 30 30 (by decide)).1

/-- C6: the four concrete parser examples, and the 12-hour to
minutes-from-midnight conversion rules. -/
theorem claim6_parse_examples :
    parse_schedule_string "MW 10:00 AM - 11:30 AM" =
      some ⟨["M", "W"], 600, 690⟩
    ∧ parse_schedule_string "TTh 01:00 PM - 03:00 PM" =
      some ⟨["T", "Th"], 780, 900⟩
    ∧ parse_schedule_string "MW 11:30 AM - 10:00 AM" = none
    ∧ parse_schedule_string "Invalid String" = none
    ∧ (∀ m : Nat, to24 12 m false = m ∧ to24 12 m true = 720 + m)
    ∧ (∀ h m : Nat, h ≠ 12 →
        to24 h m false = h * 60 + m ∧ to24 h m true = h * 60 + m + 720) := by
  refine ⟨by decide, by decide, by decide, by decide, fun m => ⟨?_, ?_⟩,
    fun h m hne => ⟨?_, ?_⟩⟩
  · simp [to24]
  · simp [to24]
  · simp [to24, hne]
  · simp [to24, hne]
    omega

/-- Witness for C6's conversion rules at a concrete non-noon hour. -/
theorem claim6_parse_examples_witness :
    to24 1 30 true = 1 * 60 + 30 + 720 :=
  (claim6_parse_examples.2.2.2.2.2 1 30 (by decide)).2

/-! ### Claim theorems: parser failure conditions -/

/-- A schedule string whose day-token run and time range sit in exactly
two whitespace-delimited fields. -/
def twoFieldInput : String := "MW 10:00AM-11:30AM"

/-- Counterexample to C3: this input is a day-token run followed by a
matching time range in two whitespace-delimited fields, yet the parser
rejects it (the source requires at least four fields). -/
theorem claim3_two_fields_cex :
    parse_schedule_string twoFieldInput = none
    ∧ (splitWs twoFieldInput.data).length = 2
    ∧ searchRange (joinSpace (splitWs twoFieldInput.data).tail) ≠ none := by
  refine ⟨by decide, by decide, by decide⟩

/-- C3 (amended): `parseInterval` returns none exactly when the input is
empty, has fewer than four whitespace-delimited fields, has no time-range
match in the joined tail fields, or has an hour/minute/meridiem group
that fails re-parsing or a start minute at or past the end minute. -/
theorem claim3_parse_failure_iff (s : String) :
    parse_schedule_string s = none ↔
      s.data = []
      ∨ (splitWs s.data).length < 4
      ∨ searchRange (joinSpace (splitWs s.data).tail) = none
      ∨ ∃ g1 g2, searchRange (joinSpace (splitWs s.data).tail) = some (g1, g2)
          ∧ (parse_time_to_minutes g1 = none
            ∨ parse_time_to_minutes g2 = none
            ∨ ∃ m1 m2, parse_time_to_minutes g1 = some m1
                ∧ parse_time_to_minutes g2 = some m2 ∧ m1 ≥ m2) := by
  by_cases he : s.data.isEmpty
  · have hd : s.data = [] := by simpa using he
    constructor
    · intro _
      exact Or.inl hd
    · intro _
      simp [parse_schedule_string, he]
  · have hd : s.data ≠ [] := by simpa using he
    have hbase : parse_schedule_string s =
        (match splitWs s.data with
          | [] => none
          | dp :: rest =>
            if (dp :: rest).length < 4 then none
            else parseRangePart dp rest) := by
      unfold parse_schedule_string
      rw [if_neg he]
    cases hsp : splitWs s.data with
    | nil =>
      have hval : parse_schedule_string s = none := by rw [hbase, hsp]
      constructor
      · intro _
        right; left
        simp
      · intro _
        exact hval
    | cons dp rest =>
      by_cases hlen : (dp :: rest).length < 4
      · have hval : parse_schedule_string s = none := by
          rw [hbase, hsp]
          show (if (dp :: rest).length < 4 then none
            else parseRangePart dp rest) = none
          rw [if_pos hlen]
        constructor
        · intro _
          right; left
          exact hlen
        · intro _
          exact hval
      · have hval : parse_schedule_string s = parseRangePart dp rest := by
          rw [hbase, hsp]
          show (if (dp :: rest).length < 4 then none
            else parseRangePart dp rest) = parseRangePart dp rest
          rw [if_neg hlen]
        cases hr : searchRange (joinSpace rest) with
        | none =>
          have hrp : parseRangePart dp rest = none := by
            unfold parseRangePart
            rw [hr]
          constructor
          · intro _
            right; right; left
            exact hr
          · intro _
            rw [hval, hrp]
        | some g =>
          obtain ⟨g1, g2⟩ := g
          have hrp0 : parseRangePart dp rest =
              (match parse_time_to_minutes g1, parse_time_to_minutes g2 with
                | some st, some en =>
                  if st ≥ en then none else some ⟨parseDays dp, st, en⟩
                | _, _ => none) := by
            unfold parseRangePart
            rw [hr]
          cases hp1 : parse_time_to_minutes g1 with
          | none =>
            have hrp : parseRangePart dp rest = none := by rw [hrp0, hp1]
            constructor
            · intro _
              right; right; right
              exact ⟨g1, g2, hr, Or.inl hp1⟩
            · intro _
              rw [hval, hrp]
          | some m1 =>
            cases hp2 : parse_time_to_minutes g2 with
            | none =>
              have hrp : parseRangePart dp rest = none := by
                rw [hrp0, hp1, hp2]
              constructor
              · intro _
                right; right; right
                exact ⟨g1, g2, hr, Or.inr (Or.inl hp2)⟩
              · intro _
                rw [hval, hrp]
            | some m2 =>
              by_cases hge : m1 ≥ m2
              · have hrp : parseRangePart dp rest = none := by
                  rw [hrp0, hp1, hp2]
                  show (if m1 ≥ m2 then none
                    else some (ParsedSchedule.mk (parseDays dp) m1 m2)) = none
                  rw [if_pos hge]
                constructor
                · intro _
                  right; right; right
                  exact ⟨g1, g2, hr, Or.inr (Or.inr ⟨m1, m2, hp1, hp2, hge⟩)⟩
                · intro _
                  rw [hval, hrp]
              · have hrp : parseRangePart dp rest =
                    some ⟨parseDays dp, m1, m2⟩ := by
                  rw [hrp0, hp1, hp2]
                  show (if m1 ≥ m2 then none
                    else some (ParsedSchedule.mk (parseDays dp) m1 m2)) =
                    some (ParsedSchedule.mk (parseDays dp) m1 m2)
                  rw [if_neg hge]
                constructor
                · intro hnone
                  rw [hval, hrp] at hnone
                  exact Option.noConfusion hnone
                · rintro (h | h | h | ⟨ga, gb, hr2, hcase⟩)
                  · exact absurd h hd
                  · exact absurd h hlen
                  · simp only [List.tail_cons] at h
                    rw [hr] at h
                    exact Option.noConfusion h
                  · simp only [List.tail_cons] at hr2
                    rw [hr] at hr2
                    injection hr2 with hpair
                    obtain ⟨rfl, rfl⟩ := Prod.mk.injEq .. ▸ hpair
                    rcases hcase with h | h | ⟨ma, mb, e1, e2, hge2⟩
                    · rw [hp1] at h
                      exact Option.noConfusion h
                    · rw [hp2] at h
                      exact Option.noConfusion h
                    · rw [hp1] at e1
                      rw [hp2] at e2
                      obtain rfl : ma = m1 := by
                        injection e1 with h
                        exact h.symm
                      obtain rfl : mb = m2 := by
                        injection e2 with h
                        exact h.symm
                      exact absurd hge2 hge

/-! ### Search-engine lemmas -/

theorem bumpNode_results (st : SearchState) :
    (bumpNode st).results = st.results := rfl

theorem bumpConflict_results (st : SearchState) :
    (bumpConflict st).results = st.results := rfl

theorem create_selections (sections : List Section) (c : Constraints) :
    (create_schedule_object sections c).selections = sections := rfl

/-- One-step unfolding of `backtrack` at the leaf. -/
theorem backtrack_nil_eq (c : Constraints) (sel : List Section)
    (st : SearchState) :
    backtrack c [] sel st =
      (if ((bumpNode st).results.length : Int) ≥ c.maxSchedules then bumpNode st
       else if ((sel.filter is_full).length : Int) ≤ c.maxFullPerSchedule then
         { bumpNode st with
           results := (bumpNode st).results ++ [create_schedule_object sel c],
           stats := { (bumpNode st).stats with
             valid_schedules := (bumpNode st).stats.valid_schedules + 1 } }
       else
         { bumpNode st with stats := { (bumpNode st).stats with
             pruned_by_full := (bumpNode st).stats.pruned_by_full + 1 } }) := rfl

/-- One-step unfolding of `backtrack` at an interior course. -/
theorem backtrack_cons_eq (c : Constraints) (course : List Section)
    (rest : List (List Section)) (sel : List Section) (st : SearchState) :
    backtrack c (course :: rest) sel st =
      (if ((bumpNode st).results.length : Int) ≥ c.maxSchedules then bumpNode st
       else
         course.foldl
           (fun acc s =>
             if sel.any fun t => has_conflict s t then bumpConflict acc
             else backtrack c rest (sel ++ [s]) acc)
           (bumpNode st)) := rfl

/-- A capped call returns right after bumping the node counter. -/
theorem backtrack_capped (c : Constraints) (vls : List (List Section))
    (sel : List Section) (st : SearchState)
    (h : ((bumpNode st).results.length : Int) ≥ c.maxSchedules) :
    backtrack c vls sel st = bumpNode st := by
  cases vls with
  | nil =>
    rw [backtrack_nil_eq, if_pos h]
  | cons course rest =>
    rw [backtrack_cons_eq, if_pos h]

theorem numFeasible_nil_eq (c : Constraints) (sel : List Section) :
    numFeasible c [] sel =
      (if ((sel.filter is_full).length : Int) ≤ c.maxFullPerSchedule
       then 1 else 0) := rfl

theorem numFeasible_cons_eq (c : Constraints) (course : List Section)
    (rest : List (List Section)) (sel : List Section) :
    numFeasible c (course :: rest) sel =
      course.foldl
        (fun n s =>
          n + (if sel.any fun t => has_conflict s t then 0
               else numFeasible c rest (sel ++ [s])))
        0 := rfl

/-- Invariant preservation through a left fold. -/
theorem foldl_inv {α β : Type} (P : β → Prop) (f : β → α → β) :
    ∀ (l : List α) (b : β), P b →
      (∀ x a, a ∈ l → P x → P (f x a)) → P (l.foldl f b) := by
  intro l
  induction l with
  | nil =>
    intro b hb _
    exact hb
  | cons a l ih =>
    intro b hb hf
    exact ih (f b a)
      (hf b a (List.mem_cons_self a l) hb)
      (fun x a2 ha2 hx => hf x a2 (List.mem_cons_of_mem a ha2) hx)

/-- A running additive fold shifts by its starting value. -/
theorem foldl_add_shift {α : Type} (contrib : α → Nat) :
    ∀ (l : List α) (a : Nat),
      l.foldl (fun n s => n + contrib s) a
        = a + l.foldl (fun n s => n + contrib s) 0 := by
  intro l
  induction l with
  | nil =>
    intro a
    simp
  | cons s l ih =>
    intro a
    rw [List.foldl_cons, List.foldl_cons, ih (a + contrib s), ih (0 + contrib s)]
    omega

/-- The result-cap comparison in `Int` agrees with `toNat` arithmetic. -/
theorem cap_iff (c : Constraints) (n : Nat) :
    ((n : Int) ≥ c.maxSchedules) ↔ c.maxSchedules.toNat ≤ n := by
  omega

/-- The search records exactly `min maxSchedules.toNat
(results so far + feasible extensions)` results. -/
theorem backtrack_length (c : Constraints) :
    ∀ (vls : List (List Section)) (sel : List Section) (st : SearchState),
      st.results.length ≤ c.maxSchedules.toNat →
      (backtrack c vls sel st).results.length =
        min c.maxSchedules.toNat
          (st.results.length + numFeasible c vls sel) := by
  intro vls
  induction vls with
  | nil =>
    intro sel st hle
    rw [backtrack_nil_eq, numFeasible_nil_eq]
    by_cases hcap : ((bumpNode st).results.length : Int) ≥ c.maxSchedules
    · rw [if_pos hcap]
      rw [bumpNode_results] at hcap
      by_cases hfull : ((sel.filter is_full).length : Int) ≤ c.maxFullPerSchedule
      · rw [if_pos hfull, bumpNode_results]
        omega
      · rw [if_neg hfull, bumpNode_results]
        omega
    · rw [if_neg hcap]
      rw [bumpNode_results] at hcap
      by_cases hfull : ((sel.filter is_full).length : Int) ≤ c.maxFullPerSchedule
      · rw [if_pos hfull, if_pos hfull]
        simp only [List.length_append, bumpNode_results, List.length_singleton]
        omega
      · rw [if_neg hfull, if_neg hfull]
        simp only [bumpNode_results]
        omega
  | cons course rest ih =>
    intro sel st hle
    rw [backtrack_cons_eq, numFeasible_cons_eq]
    by_cases hcap : ((bumpNode st).results.length : Int) ≥ c.maxSchedules
    · rw [if_pos hcap]
      rw [bumpNode_results] at hcap
      rw [bumpNode_results]
      omega
    · rw [if_neg hcap]
      rw [bumpNode_results] at hcap
      have aux : ∀ (cur : List Section) (acc : SearchState),
          acc.results.length ≤ c.maxSchedules.toNat →
          (cur.foldl
            (fun acc2 s =>
              if sel.any fun t => has_conflict s t then bumpConflict acc2
              else backtrack c rest (sel ++ [s]) acc2) acc).results.length
            = min c.maxSchedules.toNat
                (acc.results.length +
                  cur.foldl
                    (fun n s =>
                      n + (if sel.any fun t => has_conflict s t then 0
                           else numFeasible c rest (sel ++ [s]))) 0) := by
        intro cur
        induction cur with
        | nil =>
          intro acc hacc
          simp only [List.foldl_nil]
          omega
        | cons s cur ih2 =>
          intro acc hacc
          rw [List.foldl_cons, List.foldl_cons, foldl_add_shift]
          by_cases hconf : (sel.any fun t => has_conflict s t) = true
          · rw [if_pos hconf, if_pos hconf]
            rw [ih2 (bumpConflict acc)
              (by rw [bumpConflict_results]; exact hacc)]
            rw [bumpConflict_results]
            omega
          · rw [if_neg hconf, if_neg hconf]
            have hbt := ih (sel ++ [s]) acc hacc
            have hble : (backtrack c rest (sel ++ [s]) acc).results.length
                ≤ c.maxSchedules.toNat := by
              rw [hbt]
              omega
            rw [ih2 _ hble, hbt]
            omega
      rw [aux course (bumpNode st) (by rw [bumpNode_results]; exact hle),
        bumpNode_results]

/-- Extending both sides of a `Forall₂` by one related pair. -/
theorem forall2_snoc {α β : Type} (R : α → β → Prop) :
    ∀ {as : List α} {bs : List β}, List.Forall₂ R as bs →
      ∀ {a : α} {b : β}, R a b → List.Forall₂ R (as ++ [a]) (bs ++ [b]) := by
  intro as bs h
  induction h with
  | nil =>
    intro a b hab
    exact List.Forall₂.cons hab List.Forall₂.nil
  | cons hR _ ih =>
    intro a b hab
    exact List.Forall₂.cons hR (ih hab)

/-- Each left element of a `Forall₂` has a related right element. -/
theorem forall2_mem_left {α β : Type} {R : α → β → Prop} :
    ∀ {as : List α} {bs : List β}, List.Forall₂ R as bs →
      ∀ a ∈ as, ∃ b ∈ bs, R a b := by
  intro as bs h
  induction h with
  | nil =>
    intro a ha
    exact absurd ha (List.not_mem_nil a)
  | cons hR _ ih =>
    intro a ha
    rcases List.mem_cons.mp ha with rfl | ha2
    · exact ⟨_, List.mem_cons_self .., hR⟩
    · obtain ⟨b, hb, hRb⟩ := ih a ha2
      exact ⟨b, List.mem_cons_of_mem _ hb, hRb⟩

/-- Composition of two `Forall₂` relations through the middle list. -/
theorem forall2_comp {α β γ : Type} {R : α → β → Prop} {S : β → γ → Prop} :
    ∀ {as : List α} {bs : List β} {cs : List γ},
      List.Forall₂ R as bs → List.Forall₂ S bs cs →
      List.Forall₂ (fun a c2 => ∃ b, R a b ∧ S b c2) as cs := by
  intro as bs cs h1
  induction h1 generalizing cs with
  | nil =>
    intro h2
    cases h2
    exact List.Forall₂.nil
  | cons hR _ ih =>
    intro h2
    cases h2 with
    | cons hS h2rec => exact List.Forall₂.cons ⟨_, hR, hS⟩ (ih h2rec)

/-- What the search guarantees of a recorded combination: later picks
never conflict with earlier ones, and the picks select one section per
course from the given lists, in order. -/
def OutOK (all : List (List Section)) (g : GeneratedSchedule) : Prop :=
  g.selections.Pairwise (fun a b => has_conflict b a = false)
  ∧ List.Forall₂ (fun s course => s ∈ course) g.selections all

/-- Soundness of `backtrack`: every recorded combination extends the
invariants of the partial selection. -/
theorem backtrack_sound (c : Constraints) :
    ∀ (vls pre : List (List Section)) (sel : List Section)
      (st : SearchState),
      (∀ g ∈ st.results, OutOK (pre ++ vls) g) →
      sel.Pairwise (fun a b => has_conflict b a = false) →
      List.Forall₂ (fun s course => s ∈ course) sel pre →
      ∀ g ∈ (backtrack c vls sel st).results, OutOK (pre ++ vls) g := by
  intro vls
  induction vls with
  | nil =>
    intro pre sel st hres hp hf g hg
    rw [backtrack_nil_eq] at hg
    by_cases hcap : ((bumpNode st).results.length : Int) ≥ c.maxSchedules
    · rw [if_pos hcap] at hg
      exact hres g hg
    · rw [if_neg hcap] at hg
      by_cases hfull : ((sel.filter is_full).length : Int) ≤ c.maxFullPerSchedule
      · rw [if_pos hfull] at hg
        rcases List.mem_append.mp hg with h | h
        · exact hres g h
        · have hge : g = create_schedule_object sel c := by simpa using h
          subst hge
          constructor
          · rw [create_selections]
            exact hp
          · rw [create_selections, List.append_nil]
            exact hf
      · rw [if_neg hfull] at hg
        exact hres g hg
  | cons course rest ih =>
    intro pre sel st hres hp hf g hg
    rw [backtrack_cons_eq] at hg
    by_cases hcap : ((bumpNode st).results.length : Int) ≥ c.maxSchedules
    · rw [if_pos hcap] at hg
      exact hres g hg
    · rw [if_neg hcap] at hg
      have happ : (pre ++ [course]) ++ rest = pre ++ course :: rest := by
        simp
      refine foldl_inv
        (fun acc => ∀ g2 ∈ acc.results, OutOK (pre ++ course :: rest) g2)
        _ course (bumpNode st) (fun g2 hg2 => hres g2 hg2) ?_ g hg
      intro acc s hs hacc
      by_cases hconf : (sel.any fun t => has_conflict s t) = true
      · rw [if_pos hconf]
        exact hacc
      · rw [if_neg hconf]
        have hnoc : ∀ t ∈ sel, has_conflict s t = false := by
          intro t ht
          have := List.any_eq_false.mp (Bool.not_eq_true _ ▸ hconf : _) t ht
          exact Bool.not_eq_true _ ▸ this
        intro g2 hg2
        have := ih (pre ++ [course]) (sel ++ [s]) acc
          (fun g3 h3 => happ ▸ hacc g3 h3)
          (List.pairwise_append.mpr
            ⟨hp, List.pairwise_singleton _ s,
              fun a ha b hb => by
                rw [List.mem_singleton.mp hb]
                exact hnoc a ha⟩)
          (forall2_snoc _ hf hs)
          g2 hg2
        exact happ ▸ this

/-- The valid-schedules counter tracks the result-list length through
the search. -/
theorem backtrack_valid (c : Constraints) :
    ∀ (vls : List (List Section)) (sel : List Section) (st : SearchState),
      st.stats.valid_schedules = st.results.length →
      (backtrack c vls sel st).stats.valid_schedules =
        (backtrack c vls sel st).results.length := by
  intro vls
  induction vls with
  | nil =>
    intro sel st hv
    rw [backtrack_nil_eq]
    by_cases hcap : ((bumpNode st).results.length : Int) ≥ c.maxSchedules
    · rw [if_pos hcap]
      exact hv
    · rw [if_neg hcap]
      by_cases hfull : ((sel.filter is_full).length : Int) ≤ c.maxFullPerSchedule
      · rw [if_pos hfull]
        show st.stats.valid_schedules + 1 =
          (st.results ++ [create_schedule_object sel c]).length
        rw [List.length_append, List.length_singleton, hv]
      · rw [if_neg hfull]
        exact hv
  | cons course rest ih =>
    intro sel st hv
    rw [backtrack_cons_eq]
    by_cases hcap : ((bumpNode st).results.length : Int) ≥ c.maxSchedules
    · rw [if_pos hcap]
      exact hv
    · rw [if_neg hcap]
      refine foldl_inv
        (fun acc => acc.stats.valid_schedules = acc.results.length)
        _ course (bumpNode st) hv ?_
      intro acc s hs hacc
      by_cases hconf : (sel.any fun t => has_conflict s t) = true
      · rw [if_pos hconf]
        exact hacc
      · rw [if_neg hconf]
        exact ih (sel ++ [s]) acc hacc

/-! ### Node-count lemmas -/

theorem bumpNode_nodes (st : SearchState) :
    (bumpNode st).stats.nodes_explored = st.stats.nodes_explored + 1 := rfl

theorem bumpConflict_nodes (st : SearchState) :
    (bumpConflict st).stats.nodes_explored = st.stats.nodes_explored := rfl

theorem exhaustiveNodes_nil_eq (sel : List Section) :
    exhaustiveNodes [] sel = 1 := rfl

theorem exhaustiveNodes_cons_eq (course : List Section)
    (rest : List (List Section)) (sel : List Section) :
    exhaustiveNodes (course :: rest) sel =
      course.foldl
        (fun n s =>
          n + (if sel.any fun t => has_conflict s t then 0
               else exhaustiveNodes rest (sel ++ [s])))
        1 := rfl

theorem exhaustiveNodes_pos (vls : List (List Section))
    (sel : List Section) : 1 ≤ exhaustiveNodes vls sel := by
  cases vls with
  | nil => exact le_refl 1
  | cons course rest =>
    rw [exhaustiveNodes_cons_eq, foldl_add_shift]
    omega

/-- The search never explores more nodes than full exhaustive
enumeration would. -/
theorem backtrack_nodes_le (c : Constraints) :
    ∀ (vls : List (List Section)) (sel : List Section) (st : SearchState),
      (backtrack c vls sel st).stats.nodes_explored
        ≤ st.stats.nodes_explored + exhaustiveNodes vls sel := by
  intro vls
  induction vls with
  | nil =>
    intro sel st
    rw [backtrack_nil_eq, exhaustiveNodes_nil_eq]
    by_cases hcap : ((bumpNode st).results.length : Int) ≥ c.maxSchedules
    · rw [if_pos hcap, bumpNode_nodes]
    · rw [if_neg hcap]
      by_cases hfull : ((sel.filter is_full).length : Int) ≤ c.maxFullPerSchedule
      · rw [if_pos hfull]
        show st.stats.nodes_explored + 1 ≤ st.stats.nodes_explored + 1
        omega
      · rw [if_neg hfull]
        show st.stats.nodes_explored + 1 ≤ st.stats.nodes_explored + 1
        omega
  | cons course rest ih =>
    intro sel st
    rw [backtrack_cons_eq]
    by_cases hcap : ((bumpNode st).results.length : Int) ≥ c.maxSchedules
    · rw [if_pos hcap, bumpNode_nodes]
      have := exhaustiveNodes_pos (course :: rest) sel
      omega
    · rw [if_neg hcap, exhaustiveNodes_cons_eq, foldl_add_shift]
      have aux : ∀ (cur : List Section) (acc : SearchState),
          (cur.foldl
            (fun acc2 s =>
              if sel.any fun t => has_conflict s t then bumpConflict acc2
              else backtrack c rest (sel ++ [s]) acc2)
            acc).stats.nodes_explored
            ≤ acc.stats.nodes_explored
              + cur.foldl
                  (fun n s =>
                    n + (if sel.any fun t => has_conflict s t then 0
                         else exhaustiveNodes rest (sel ++ [s]))) 0 := by
        intro cur
        induction cur with
        | nil =>
          intro acc
          simp only [List.foldl_nil]
          omega
        | cons s cur ih2 =>
          intro acc
          rw [List.foldl_cons, List.foldl_cons, foldl_add_shift]
          by_cases hconf : (sel.any fun t => has_conflict s t) = true
          · rw [if_pos hconf, if_pos hconf]
            have h2 := ih2 (bumpConflict acc)
            rw [bumpConflict_nodes] at h2
            omega
          · rw [if_neg hconf, if_neg hconf]
            have h1 := ih (sel ++ [s]) acc
            have h2 := ih2 (backtrack c rest (sel ++ [s]) acc)
            omega
      have h3 := aux course (bumpNode st)
      rw [bumpNode_nodes] at h3
      omega

/-- When the cap cannot bind, the search is full exhaustive enumeration
and explores exactly `exhaustiveNodes` nodes. -/
theorem backtrack_nodes_exhaustive (c : Constraints) :
    ∀ (vls : List (List Section)) (sel : List Section) (st : SearchState),
      st.results.length + numFeasible c vls sel < c.maxSchedules.toNat →
      (backtrack c vls sel st).stats.nodes_explored
        = st.stats.nodes_explored + exhaustiveNodes vls sel := by
  intro vls
  induction vls with
  | nil =>
    intro sel st hlt
    have hlen : st.results.length < c.maxSchedules.toNat :=
      lt_of_le_of_lt (Nat.le_add_right _ _) hlt
    rw [backtrack_nil_eq, exhaustiveNodes_nil_eq]
    have hcap : ¬ ((bumpNode st).results.length : Int) ≥ c.maxSchedules := by
      rw [bumpNode_results]
      omega
    rw [if_neg hcap]
    by_cases hfull : ((sel.filter is_full).length : Int) ≤ c.maxFullPerSchedule
    · rw [if_pos hfull]
      rfl
    · rw [if_neg hfull]
      rfl
  | cons course rest ih =>
    intro sel st hlt
    rw [numFeasible_cons_eq] at hlt
    have hlen : st.results.length < c.maxSchedules.toNat :=
      lt_of_le_of_lt (Nat.le_add_right _ _) hlt
    rw [backtrack_cons_eq, exhaustiveNodes_cons_eq, foldl_add_shift]
    have hcap : ¬ ((bumpNode st).results.length : Int) ≥ c.maxSchedules := by
      rw [bumpNode_results]
      omega
    rw [if_neg hcap]
    have aux : ∀ (cur : List Section) (acc : SearchState),
        acc.results.length
          + cur.foldl
              (fun n s =>
                n + (if sel.any fun t => has_conflict s t then 0
                     else numFeasible c rest (sel ++ [s]))) 0
          < c.maxSchedules.toNat →
        (cur.foldl
          (fun acc2 s =>
            if sel.any fun t => has_conflict s t then bumpConflict acc2
            else backtrack c rest (sel ++ [s]) acc2)
          acc).stats.nodes_explored
          = acc.stats.nodes_explored
            + cur.foldl
                (fun n s =>
                  n + (if sel.any fun t => has_conflict s t then 0
                       else exhaustiveNodes rest (sel ++ [s]))) 0 := by
      intro cur
      induction cur with
      | nil =>
        intro acc _
        simp only [List.foldl_nil]
        omega
      | cons s cur ih2 =>
        intro acc hacc
        rw [List.foldl_cons, foldl_add_shift] at hacc
        rw [List.foldl_cons, List.foldl_cons, foldl_add_shift]
        by_cases hconf : (sel.any fun t => has_conflict s t) = true
        · rw [if_pos hconf] at hacc
          rw [if_pos hconf, if_pos hconf]
          have h2 := ih2 (bumpConflict acc)
            (by rw [bumpConflict_results]; omega)
          rw [bumpConflict_nodes] at h2
          rw [h2]
          omega
        · rw [if_neg hconf] at hacc
          rw [if_neg hconf, if_neg hconf]
          have hle2 : acc.results.length ≤ c.maxSchedules.toNat := by omega
          have hnf : acc.results.length
              + numFeasible c rest (sel ++ [s]) < c.maxSchedules.toNat := by
            omega
          have h1 := ih (sel ++ [s]) acc hnf
          have hlenacc := backtrack_length c rest (sel ++ [s]) acc hle2
          have h2 := ih2 (backtrack c rest (sel ++ [s]) acc)
            (by rw [hlenacc]; omega)
          rw [h2, h1]
          omega
    have h3 := aux course (bumpNode st) (by rw [bumpNode_results]; exact hlt)
    rw [h3, bumpNode_nodes]
    omega

/-! ### Pre-filter lemmas -/

theorem preFilter_nil_eq (c : Constraints) : preFilter c [] = (some [], 0) := rfl

theorem preFilter_cons_eq (c : Constraints) (course : List Section)
    (rest : List (List Section)) :
    preFilter c (course :: rest) =
      (if ((course.filter fun s => is_viable s c).map attachParsed).isEmpty
       then ((none : Option (List (List Section))),
         (course.filter fun s => !is_viable s c).length)
       else
         ((preFilter c rest).1.map
            fun ls => ((course.filter fun s => is_viable s c).map attachParsed) :: ls,
          (course.filter fun s => !is_viable s c).length
            + (preFilter c rest).2)) := rfl

/-- On success the pre-filter returns, per course and in order, exactly
the viable sections with their parsed schedules attached. -/
theorem preFilter_some (c : Constraints) :
    ∀ (cs vls : List (List Section)),
      (preFilter c cs).1 = some vls →
      List.Forall₂
        (fun vl course =>
          vl = (course.filter fun s => is_viable s c).map attachParsed)
        vls cs := by
  intro cs
  induction cs with
  | nil =>
    intro vls h
    obtain rfl : vls = [] := by
      rw [preFilter_nil_eq] at h
      injection h with h2
      exact h2.symm
    exact List.Forall₂.nil
  | cons course rest ih =>
    intro vls h
    rw [preFilter_cons_eq] at h
    by_cases hemp :
        ((course.filter fun s => is_viable s c).map attachParsed).isEmpty = true
    · rw [if_pos hemp] at h
      exact absurd h (by simp)
    · rw [if_neg hemp] at h
      obtain ⟨ls, hls, rfl⟩ := Option.map_eq_some'.mp h
      exact List.Forall₂.cons rfl (ih ls hls)

/-- When a predicate filters a list to nothing, its negation keeps
everything. -/
theorem filter_all_neg {α : Type} (p : α → Bool) (l : List α)
    (h : l.filter p = []) : (l.filter fun x => !p x).length = l.length := by
  have hall : ∀ x ∈ l, p x = false := by
    intro x hx
    have := List.filter_eq_nil_iff.mp h x hx
    exact Bool.not_eq_true _ ▸ this
  have hself : l.filter (fun x => !p x) = l :=
    List.filter_eq_self.mpr fun x hx => by rw [hall x hx]; rfl
  rw [hself]

/-- The pre-filter short-circuits at the first course retaining nothing,
counting one `prunedByViability` per skipped section scanned so far. -/
theorem preFilter_none (c : Constraints) :
    ∀ (pre : List (List Section)) (course : List Section)
      (post : List (List Section)),
      (∀ cp ∈ pre, (cp.filter fun s => is_viable s c) ≠ []) →
      course.filter (fun s => is_viable s c) = [] →
      preFilter c (pre ++ course :: post) =
        (none,
          (pre.map fun cp => (cp.filter fun s => !is_viable s c).length).sum
            + course.length) := by
  intro pre
  induction pre with
  | nil =>
    intro course post _ hcourse
    rw [List.nil_append, preFilter_cons_eq, hcourse]
    rw [if_pos (by simp)]
    rw [filter_all_neg _ _ hcourse]
    simp
  | cons cp pre ih =>
    intro course post hpre hcourse
    rw [List.cons_append, preFilter_cons_eq]
    have hne :
        ¬ ((cp.filter fun s => is_viable s c).map attachParsed).isEmpty = true := by
      have h1 := hpre cp (List.mem_cons_self ..)
      cases hflt : cp.filter fun s => is_viable s c with
      | nil => exact absurd hflt h1
      | cons a l => simp [hflt]
    rw [if_neg hne]
    rw [ih course post (fun x hx => hpre x (List.mem_cons_of_mem _ hx)) hcourse]
    simp [List.sum_cons]
    omega

/-! ### `generate_schedules` unfolding and cached-interval lemmas -/

theorem generate_eq_none (c : Constraints) (cs : List (List Section))
    (pruned : Nat) (h : preFilter c cs = (none, pruned)) :
    generate_schedules cs c = ([], ⟨0, 0, 0, pruned, 0⟩) := by
  unfold generate_schedules
  rw [h]

theorem generate_eq_some (c : Constraints) (cs : List (List Section))
    (vls : List (List Section)) (pruned : Nat)
    (h : preFilter c cs = (some vls, pruned)) :
    generate_schedules cs c =
      ((backtrack c vls [] ⟨[], ⟨0, 0, 0, pruned, 0⟩⟩).results,
       (backtrack c vls [] ⟨[], ⟨0, 0, 0, pruned, 0⟩⟩).stats) := by
  unfold generate_schedules
  rw [h]

/-- Attaching always recomputes the interval from the schedule text. -/
theorem effParsed_attach (t : Section) :
    effParsed (attachParsed t) = parse_schedule_string t.schedule := by
  show (match parse_schedule_string t.schedule with
    | some p => some p
    | none => parse_schedule_string t.schedule) = parse_schedule_string t.schedule
  cases hp : parse_schedule_string t.schedule <;> rfl

/-- For a section whose cache agrees with its schedule text, the
effective interval is the parse of the text. -/
theorem effParsed_cache (t : Section)
    (h : t.parsed_schedule = none
      ∨ t.parsed_schedule = parse_schedule_string t.schedule) :
    effParsed t = parse_schedule_string t.schedule := by
  unfold effParsed
  rcases h with h | h
  · rw [h]
  · rw [h]
    cases hp : parse_schedule_string t.schedule <;> rfl

/-- Attaching the parsed schedule preserves viability for
cache-consistent sections. -/
theorem is_viable_attach (t : Section) (c : Constraints)
    (h : t.parsed_schedule = none
      ∨ t.parsed_schedule = parse_schedule_string t.schedule) :
    is_viable (attachParsed t) c = is_viable t c := by
  have hfull : is_full (attachParsed t) = is_full t := rfl
  have hrisk : is_at_risk (attachParsed t) = is_at_risk t := rfl
  unfold is_viable
  rw [effParsed_attach, effParsed_cache t h, hfull, hrisk]

/-! ### Claim theorems: search-engine invariants and caps -/

/-- Counterexample to C1 as universally stated: a section whose cached
`parsed_schedule` disagrees with its schedule text passes the pre-filter
on the cache, but the recorded selection (re-parsed from the text) fails
`isViable`. -/
theorem claim1_cached_mismatch_cex :
    (generate_schedules [[secStale]] cWide).1.length = 1
    ∧ ((generate_schedules [[secStale]] cWide).1.all
        fun g => g.selections.all fun s => is_viable s cWide) = false := by
  refine ⟨by decide, by decide⟩

/-- C1 (amended): for inputs whose sections carry either no cached
interval or a cache equal to the parse of their schedule text, every
combination returned by the search is pairwise conflict-free, all its
selections pass `isViable` under the run's constraints, and it has
exactly one selection per course in the caller-supplied order. -/
theorem claim1_results_invariant (cs : List (List Section)) (c : Constraints)
    (hcache : ∀ course ∈ cs, ∀ s ∈ course,
      s.parsed_schedule = none
        ∨ s.parsed_schedule = parse_schedule_string s.schedule) :
    ∀ g ∈ (generate_schedules cs c).1,
      g.selections.Pairwise
        (fun a b => has_conflict a b = false ∧ has_conflict b a = false)
      ∧ (∀ s ∈ g.selections, is_viable s c = true)
      ∧ List.Forall₂ (fun s course => ∃ t ∈ course, s = attachParsed t)
          g.selections cs := by
  intro g hg
  rcases hpf : preFilter c cs with ⟨o, pruned⟩
  cases o with
  | none =>
    rw [generate_eq_none c cs pruned hpf] at hg
    exact absurd hg (List.not_mem_nil g)
  | some vls =>
    rw [generate_eq_some c cs vls pruned hpf] at hg
    have hsound := backtrack_sound c vls [] [] ⟨[], ⟨0, 0, 0, pruned, 0⟩⟩
      (fun g2 hg2 => absurd hg2 (List.not_mem_nil g2))
      List.Pairwise.nil List.Forall₂.nil g hg
    rw [List.nil_append] at hsound
    obtain ⟨hpair, hmem⟩ := hsound
    have hvl := preFilter_some c cs vls (by rw [hpf])
    have hcomp := forall2_comp hmem hvl
    refine ⟨?_, ?_, ?_⟩
    · exact hpair.imp fun hab =>
        ⟨(has_conflict_comm _ _).trans hab, hab⟩
    · intro s hs
      obtain ⟨course, hcm, vl, hsvl, hvleq⟩ := forall2_mem_left hcomp s hs
      subst hvleq
      obtain ⟨t, htf, rfl⟩ := List.mem_map.mp hsvl
      obtain ⟨htmem, htv⟩ := List.mem_filter.mp htf
      rw [is_viable_attach t c (hcache course hcm t htmem)]
      exact htv
    · refine hcomp.imp ?_
      rintro s course ⟨vl, hsvl, hvleq⟩
      subst hvleq
      obtain ⟨t, htf, rfl⟩ := List.mem_map.mp hsvl
      exact ⟨t, (List.mem_filter.mp htf).1, rfl⟩

/-- Witness for C1 at a concrete input: the single returned selection is
viable. -/
theorem claim1_results_invariant_witness :
    is_viable
      ((generate_schedules [[secMW]] cWide).1.headI.selections.headI)
      cWide = true := by
  have h := claim1_results_invariant [[secMW]] cWide
    (by
      intro course hc s hs
      rw [List.mem_singleton.mp hc] at hs
      rw [List.mem_singleton.mp hs]
      exact Or.inl rfl)
    ((generate_schedules [[secMW]] cWide).1.headI) (by decide)
  exact h.2.1 _ (by decide)

/-- Counterexample to C2 as stated: (i) with `maxSchedules = 0` the
result list is empty but one search node (the root call) is explored,
not zero; (ii) with three feasible combinations and a cap of two, the
capped search explores exactly as many nodes as the uncapped run that
enumerates all three combinations, so `nodesExplored` is not strictly
less than full exhaustive enumeration would require. -/
theorem claim2_cap_cex :
    (generate_schedules [[secMW]] cCapZero).1 = []
    ∧ (generate_schedules [[secMW]] cCapZero).2.nodes_explored = 1
    ∧ feasibleCount [[secMW, secTTh, secF]] cCapTwo
        > cCapTwo.maxSchedules.toNat
    ∧ (generate_schedules [[secMW, secTTh, secF]] cCapTwo).1.length = 2
    ∧ feasibleCount [[secMW, secTTh, secF]] cWide
        < cWide.maxSchedules.toNat
    ∧ (generate_schedules [[secMW, secTTh, secF]] cWide).1.length = 3
    ∧ (generate_schedules [[secMW, secTTh, secF]] cCapTwo).2.nodes_explored
        = (generate_schedules [[secMW, secTTh, secF]] cWide).2.nodes_explored := by
  refine ⟨by decide, by decide, by decide, by decide, by decide, by decide,
    by decide⟩

/-- C2 (amended): the search never returns more than
`max(maxSchedules, 0)` results; when the feasible combinations exceed
that cap it returns exactly the cap; the search terminates early in the
sense that every call entered once the cap is reached returns right
after incrementing the node counter, and `nodesExplored` never exceeds —
but is not always strictly less than — the node count of full exhaustive
enumeration (to which it is exactly equal whenever the cap does not
bind); and a non-positive `maxSchedules` yields an empty result list
with at most one node explored (the root call; zero when pre-filtering
short-circuits first). -/
theorem claim2_cap_enforcement (cs : List (List Section)) (c : Constraints) :
    (generate_schedules cs c).1.length ≤ c.maxSchedules.toNat
    ∧ (feasibleCount cs c > c.maxSchedules.toNat →
        (generate_schedules cs c).1.length = c.maxSchedules.toNat)
    ∧ (∀ (vls : List (List Section)) (sel : List Section)
        (st : SearchState),
        (st.results.length : Int) ≥ c.maxSchedules →
        backtrack c vls sel st = bumpNode st)
    ∧ (generate_schedules cs c).2.nodes_explored ≤ exhaustiveNodeCount cs c
    ∧ (feasibleCount cs c < c.maxSchedules.toNat →
        (generate_schedules cs c).2.nodes_explored
          = exhaustiveNodeCount cs c)
    ∧ (c.maxSchedules ≤ 0 →
        (generate_schedules cs c).1 = []
        ∧ (generate_schedules cs c).2.nodes_explored ≤ 1) := by
  have hterm : ∀ (vls : List (List Section)) (sel : List Section)
      (st : SearchState),
      (st.results.length : Int) ≥ c.maxSchedules →
      backtrack c vls sel st = bumpNode st :=
    fun vls sel st h => backtrack_capped c vls sel st h
  rcases hpf : preFilter c cs with ⟨o, pruned⟩
  cases o with
  | none =>
    rw [generate_eq_none c cs pruned hpf]
    have hfc : feasibleCount cs c = 0 := by
      unfold feasibleCount
      rw [hpf]
    have hec : exhaustiveNodeCount cs c = 0 := by
      unfold exhaustiveNodeCount
      rw [hpf]
    refine ⟨by simp, ?_, hterm, ?_, ?_, ?_⟩
    · intro hgt
      rw [hfc] at hgt
      omega
    · exact Nat.zero_le _
    · intro _
      rw [hec]
    · intro _
      exact ⟨rfl, by simp⟩
  | some vls =>
    rw [generate_eq_some c cs vls pruned hpf]
    have hlen := backtrack_length c vls [] ⟨[], ⟨0, 0, 0, pruned, 0⟩⟩
      (by simp)
    have hfc : feasibleCount cs c = numFeasible c vls [] := by
      unfold feasibleCount
      rw [hpf]
    have hec : exhaustiveNodeCount cs c = exhaustiveNodes vls [] := by
      unfold exhaustiveNodeCount
      rw [hpf]
    have h0 : (⟨[], ⟨0, 0, 0, pruned, 0⟩⟩
        : SearchState).stats.nodes_explored = 0 := rfl
    refine ⟨?_, ?_, hterm, ?_, ?_, ?_⟩
    · show (backtrack c vls [] ⟨[], ⟨0, 0, 0, pruned, 0⟩⟩).results.length
        ≤ c.maxSchedules.toNat
      rw [hlen]
      omega
    · intro hgt
      rw [hfc] at hgt
      show (backtrack c vls [] ⟨[], ⟨0, 0, 0, pruned, 0⟩⟩).results.length
        = c.maxSchedules.toNat
      rw [hlen]
      simp only [List.length_nil] at *
      omega
    · show (backtrack c vls []
        ⟨[], ⟨0, 0, 0, pruned, 0⟩⟩).stats.nodes_explored
        ≤ exhaustiveNodeCount cs c
      have hb := backtrack_nodes_le c vls [] ⟨[], ⟨0, 0, 0, pruned, 0⟩⟩
      rw [h0] at hb
      rw [hec]
      omega
    · intro hlt
      rw [hfc] at hlt
      show (backtrack c vls []
        ⟨[], ⟨0, 0, 0, pruned, 0⟩⟩).stats.nodes_explored
        = exhaustiveNodeCount cs c
      have hb := backtrack_nodes_exhaustive c vls []
        ⟨[], ⟨0, 0, 0, pruned, 0⟩⟩ (by simpa using hlt)
      rw [h0] at hb
      rw [hec]
      omega
    · intro hnonpos
      have hm : c.maxSchedules.toNat = 0 := by omega
      constructor
      · show (backtrack c vls [] ⟨[], ⟨0, 0, 0, pruned, 0⟩⟩).results = []
        have hz : (backtrack c vls []
            ⟨[], ⟨0, 0, 0, pruned, 0⟩⟩).results.length = 0 := by
          rw [hlen, hm]
          simp
        exact List.length_eq_zero.mp hz
      · show (backtrack c vls []
          ⟨[], ⟨0, 0, 0, pruned, 0⟩⟩).stats.nodes_explored ≤ 1
        have hcap : (((bumpNode ⟨[], ⟨0, 0, 0, pruned, 0⟩⟩).results.length : Int)
            ≥ c.maxSchedules) := by
          show (((0 : Nat) : Int) ≥ c.maxSchedules)
          omega
        rw [backtrack_capped c vls [] _ hcap]
        show 0 + 1 ≤ 1
        omega

/-- Witness for C2 at a concrete overfull problem: two feasible
combinations, a cap of one, exactly one result. -/
theorem claim2_cap_enforcement_witness :
    feasibleCount [[secMW, secTTh]] cCapOne > cCapOne.maxSchedules.toNat
    ∧ (generate_schedules [[secMW, secTTh]] cCapOne).1.length
        = cCapOne.maxSchedules.toNat :=
  ⟨by decide,
    (claim2_cap_enforcement [[secMW, secTTh]] cCapOne).2.1 (by decide)⟩

/-- C9: if some course retains no viable section (all earlier courses
retaining at least one), the search returns an empty result list and the
statistics accumulated so far — one `prunedByViability` per section
skipped up to and including the failing course — without exploring any
node. -/
theorem claim9_empty_course_shortcircuit (c : Constraints)
    (pre : List (List Section)) (course : List Section)
    (post : List (List Section))
    (hpre : ∀ cp ∈ pre, (cp.filter fun s => is_viable s c) ≠ [])
    (hcourse : course.filter (fun s => is_viable s c) = []) :
    (generate_schedules (pre ++ course :: post) c).1 = []
    ∧ (generate_schedules (pre ++ course :: post) c).2.nodes_explored = 0
    ∧ (generate_schedules (pre ++ course :: post) c).2.valid_schedules = 0
    ∧ (generate_schedules (pre ++ course :: post) c).2.pruned_by_viability
        = (pre.map fun cp => (cp.filter fun s => !is_viable s c).length).sum
          + course.length := by
  rw [generate_eq_none c _ _ (preFilter_none c pre course post hpre hcourse)]
  exact ⟨rfl, rfl, rfl, rfl⟩

/-- Witness for C9 at a concrete problem whose second course has no
viable section. -/
theorem claim9_empty_course_shortcircuit_witness :
    (generate_schedules [[secMW], [secRaw]] cWide).1 = []
    ∧ (generate_schedules [[secMW], [secRaw]] cWide).2.nodes_explored = 0
    ∧ (generate_schedules [[secMW], [secRaw]] cWide).2.valid_schedules = 0
    ∧ (generate_schedules [[secMW], [secRaw]] cWide).2.pruned_by_viability
        = ([[secMW]].map
            fun cp => (cp.filter fun s => !is_viable s cWide).length).sum
          + [secRaw].length :=
  claim9_empty_course_shortcircuit cWide [[secMW]] [secRaw] []
    (by decide) (by decide)

/-- C10: the `valid_schedules` counter always equals the length of the
returned result list. -/
theorem claim10_valid_count_eq_results (cs : List (List Section))
    (c : Constraints) :
    (generate_schedules cs c).2.valid_schedules =
      (generate_schedules cs c).1.length := by
  rcases hpf : preFilter c cs with ⟨o, pruned⟩
  cases o with
  | none =>
    rw [generate_eq_none c cs pruned hpf]
    rfl
  | some vls =>
    rw [generate_eq_some c cs vls pruned hpf]
    exact backtrack_valid c vls [] _ rfl

end Timetable
